import Mathlib

/-!
# Verification of the Zotero Librarian toolkit against its specification

Shallow embedding of `src/zotero_librarian/__init__.py`.  Python dicts for
library items become the `Item` structure; the HTTP backend (pyzotero client
plus the local REST API) is modelled by a `Backend` record of oracles; each
effectful operation returns its result together with the list of HTTP
requests it issued, and exceptions are modelled by `Except`.
-/

namespace ZoteroLib

/-- A library item: the fragment of the Zotero item JSON the toolkit reads.
`fields` models the string-valued entries of `item["data"]`, `tags` the list
`[t["tag"] for t in item["data"]["tags"]]`, `collections` the key list. -/
structure Item where
  key : String
  itemType : String
  parentItem : Option String
  fields : List (String × String)
  tags : List String
  collections : List String
deriving Repr, DecidableEq, Inhabited

/-- `item["data"].get(field, "")`: first binding wins, missing gives `""`. -/
def Item.getField (it : Item) (f : String) : String :=
  match it.fields.lookup f with
  | some v => v
  | none => ""

/-- One HTTP request issued against the local API. -/
inductive Req where
  | pageReq (start : Nat)
  | readReq (key : String)
  | writeReq (key : String)
  | deleteReq (key : String)
deriving Repr, DecidableEq

/-!
## Pagination: `_all_items` (source lines 56-71)

The generator requests pages of `limit = 100` items starting at offset 0,
stops on an empty page before yielding, yields a short page and stops, and
otherwise advances the offset by 100.  The unbounded `while True` loop is
embedded with explicit fuel; termination on a backend that eventually serves
a short page is the statement that the result is independent of all
sufficiently large fuel values.
-/

/-- Embedding of `_all_items`: `f start` is the page the backend serves for
`zot.items(start=start, limit=100)`.  Returns the yielded items together
with the list of requested offsets. -/
def _all_items (f : Nat → List Item) : Nat → Nat → List Item × List Nat
  | 0, _ => ([], [])
  | fuel + 1, start =>
    let page := f start
    if page.isEmpty then ([], [start])
    else if page.length < 100 then (page, [start])
    else
      let r := _all_items f fuel (start + 100)
      (page ++ r.1, start :: r.2)

/-- Auxiliary invariant for `_all_items`: if all pages strictly before index
`k` (relative to `start`) are full and page `k` is short, the loop yields the
concatenation of pages `0..k` and requests exactly those offsets. -/
theorem _all_items_spec (f : Nat → List Item) :
    ∀ (k fuel start : Nat),
      (∀ j, j < k → (f (start + 100 * j)).length = 100) →
      (f (start + 100 * k)).length < 100 →
      k + 1 ≤ fuel →
      _all_items f fuel start =
        (((List.range (k + 1)).map (fun j => f (start + 100 * j))).flatten,
         (List.range (k + 1)).map (fun j => start + 100 * j)) := by
  intro k
  induction k with
  | zero =>
    intro fuel start _ hshort hfuel
    match fuel, hfuel with
    | fuel + 1, _ =>
      simp only [_all_items]
      by_cases hemp : (f start).isEmpty
      · simp only [hemp, if_true]
        have hnil : f start = [] := List.isEmpty_iff.mp hemp
        refine Prod.ext ?_ ?_ <;> simp [List.range_succ, hnil]
      · have hlt : (f start).length < 100 := by simpa using hshort
        simp only [hemp, if_false, Bool.false_eq_true, if_neg, hlt, if_true]
        refine Prod.ext ?_ ?_ <;> simp [List.range_succ]
  | succ k ih =>
    intro fuel start hfull hshort hfuel
    match fuel, hfuel with
    | fuel + 1, hfuel =>
      have h0 : (f start).length = 100 := by
        have := hfull 0 (Nat.succ_pos k)
        simpa using this
      have hemp : ¬ (f start).isEmpty := by
        intro h
        rw [List.isEmpty_iff.mp h] at h0
        simp at h0
      have hnotshort : ¬ (f start).length < 100 := by omega
      simp only [_all_items, if_neg hemp, if_neg hnotshort]
      have hfull' : ∀ j, j < k → (f (start + 100 + 100 * j)).length = 100 := by
        intro j hj
        have := hfull (j + 1) (by omega)
        have harith : start + 100 * (j + 1) = start + 100 + 100 * j := by ring
        rwa [harith] at this
      have hshort' : (f (start + 100 + 100 * k)).length < 100 := by
        have harith : start + 100 * (k + 1) = start + 100 + 100 * k := by ring
        rwa [harith] at hshort
      have hrec := ih fuel (start + 100) hfull' hshort' (by omega)
      rw [hrec]
      have etailL : (List.range (k + 1)).map ((fun j => f (start + 100 * j)) ∘ Nat.succ)
          = (List.range (k + 1)).map (fun j => f (start + 100 + 100 * j)) := by
        apply List.map_congr_left
        intro j _
        simp only [Function.comp_apply]
        congr 1
        omega
      have etailR : (List.range (k + 1)).map ((fun j => start + 100 * j) ∘ Nat.succ)
          = (List.range (k + 1)).map (fun j => start + 100 + 100 * j) := by
        apply List.map_congr_left
        intro j _
        simp only [Function.comp_apply]
        omega
      have hL : ((List.range (k + 1 + 1)).map (fun j => f (start + 100 * j))).flatten
          = f start ++
            ((List.range (k + 1)).map (fun j => f (start + 100 + 100 * j))).flatten := by
        rw [List.range_succ_eq_map, List.map_cons, List.flatten_cons, List.map_map,
          etailL]
        norm_num
      have hR : (List.range (k + 1 + 1)).map (fun j => start + 100 * j)
          = start :: (List.range (k + 1)).map (fun j => start + 100 + 100 * j) := by
        rw [List.range_succ_eq_map, List.map_cons, List.map_map, etailR]
        norm_num
      rw [hL, hR]

/-- C3: pagination is a single bounded loop.  `_all_items` starts at offset
0 with page size 100, requests consecutive offsets 0, 100, ..., 100·k,
yields exactly the concatenation of the fetched pages in order, stops at the
first page that is empty or shorter than 100 items, and issues no request
beyond it; any fuel bound of at least `k + 1` gives this same value, so the
loop terminates on every backend that eventually serves a short page. -/
theorem all_items_paginates (f : Nat → List Item) (k fuel : Nat)
    (hfull : ∀ j, j < k → (f (100 * j)).length = 100)
    (hshort : (f (100 * k)).length < 100)
    (hfuel : k + 1 ≤ fuel) :
    _all_items f fuel 0 =
      (((List.range (k + 1)).map (fun j => f (100 * j))).flatten,
       (List.range (k + 1)).map (fun j => 100 * j)) := by
  have h := _all_items_spec f k fuel 0 (by simpa using hfull) (by simpa using hshort) hfuel
  simpa using h

/-- A concrete two-page backend for the pagination witness: a full page of
100 items at offset 0 and a single item at offset 100. -/
def pageBackendW : Nat → List Item :=
  fun start =>
    if start = 0 then List.replicate 100 default
    else if start = 100 then [{ (default : Item) with key := "B" }]
    else []

/-- Witness for C3 at a concrete backend: two pages, offsets 0 and 100. -/
theorem all_items_paginates_witness :
    _all_items pageBackendW 2 0 =
      (List.replicate 100 (default : Item) ++ [{ (default : Item) with key := "B" }],
       [0, 100]) := by
  have h := all_items_paginates pageBackendW 1 2
    (by
      intro j hj
      have hj0 : j = 0 := by omega
      subst hj0
      simp [pageBackendW])
    (by simp [pageBackendW])
    (by norm_num)
  rw [h]
  simp [List.range_succ, pageBackendW]

/-!
## Identifier validation: `validate_doi`, `validate_isbn`, `validate_issn`
(source lines 378-399)

All three use `re.match`, which anchors at the start of the string only: a
pattern made of single-character classes matches iff the input is at least
as long as the pattern and every leading character lies in its class.
`validate_isbn` first strips `"-"` and `" "` and branches on the resulting
length, so its match is effectively a full match; the DOI/ISSN validators
have no length check, so they accept arbitrary trailing characters.
-/

/-- ASCII decimal digit, the fragment of Python's `\d` the toolkit meets. -/
def isPyDigit (c : Char) : Bool := c.isDigit

/-- `re.match` for a pattern that is a concatenation of single-character
classes: succeeds iff every class is matched by the corresponding leading
character of the input (trailing input is ignored). -/
def reMatchStart : List (Char → Bool) → List Char → Bool
  | [], _ => true
  | _ :: _, [] => false
  | p :: ps, c :: cs => p c && reMatchStart ps cs

/-- The pattern `\d{9}[\dX]` of the ISBN-10 branch. -/
def isbnPat10 : List (Char → Bool) :=
  List.replicate 9 isPyDigit ++ [fun c => isPyDigit c || c == 'X']

/-- The pattern `\d{13}` of the ISBN-13 branch. -/
def isbnPat13 : List (Char → Bool) := List.replicate 13 isPyDigit

/-- `isbn.replace("-", "").replace(" ", "")`: removing every occurrence of a
single character is filtering it out, done once for `-` and once for space. -/
def strip_isbn (s : String) : List Char :=
  (s.toList.filter (fun c => c != '-')).filter (fun c => c != ' ')

/-- Embedding of `validate_isbn`: strip `"-"` and `" "`, then accept iff the
remainder has length 10 and matches `\d{9}[\dX]` or length 13 and matches
`\d{13}`. -/
def validate_isbn (s : String) : Bool :=
  let isbn := strip_isbn s
  if isbn.length = 10 then reMatchStart isbnPat10 isbn
  else if isbn.length = 13 then reMatchStart isbnPat13 isbn
  else false

/-- The pattern `\d{4}-\d{3}[\dX]` of `validate_issn`. -/
def issnPat : List (Char → Bool) :=
  List.replicate 4 isPyDigit ++
    ((fun c => c == '-') :: (List.replicate 3 isPyDigit ++ [fun c => isPyDigit c || c == 'X']))

/-- Embedding of `validate_issn`: `re.match` of `\d{4}-\d{3}[\dX]`, with no
anchoring at the end of the string. -/
def validate_issn (s : String) : Bool :=
  reMatchStart issnPat s.toList

/-- The character class `[-._;()/:A-Z0-9]` under `re.IGNORECASE`. -/
def doiBodyChar (c : Char) : Bool :=
  c == '-' || c == '.' || c == '_' || c == ';' || c == '(' || c == ')' || c == '/' ||
    c == ':' || c.isAlpha || c.isDigit

/-- Full match of `10\.\d{4,9}/[-._;()/:A-Z0-9]+` (case-insensitive) against
an entire character list: literal `10.`, then `k` digits for some
`4 ≤ k ≤ 9`, then `/`, then a nonempty run of body characters. -/
def doiFullMatch (cs : List Char) : Bool :=
  match cs with
  | '1' :: '0' :: '.' :: rest =>
    (List.range 6).any (fun j =>
      let k := j + 4
      decide (k ≤ rest.length) && (rest.take k).all isPyDigit &&
        (match rest.drop k with
         | '/' :: body => !body.isEmpty && body.all doiBodyChar
         | _ => false))
  | _ => false

/-- Embedding of `validate_doi`: `re.match` succeeds iff some prefix of the
input fully matches the pattern. -/
def validate_doi (s : String) : Bool :=
  (List.range (s.toList.length + 1)).any (fun i => doiFullMatch (s.toList.take i))

/-- A match at the start of `cs` is still a match after appending input. -/
theorem reMatchStart_append_input (ps : List (Char → Bool)) :
    ∀ (cs ds : List Char), reMatchStart ps cs = true →
      reMatchStart ps (cs ++ ds) = true := by
  induction ps with
  | nil => intro cs ds _; rfl
  | cons p ps ih =>
    intro cs ds h
    cases cs with
    | nil => simp [reMatchStart] at h
    | cons c cs =>
      simp only [reMatchStart, Bool.and_eq_true] at h
      simp only [List.cons_append, reMatchStart, Bool.and_eq_true]
      exact ⟨h.1, ih cs ds h.2⟩

/-- Splitting a class-list pattern around an append. -/
theorem reMatchStart_append_pat (ps qs : List (Char → Bool)) :
    ∀ cs : List Char,
      reMatchStart (ps ++ qs) cs =
        (reMatchStart ps cs && reMatchStart qs (cs.drop ps.length)) := by
  induction ps with
  | nil => intro cs; simp [reMatchStart]
  | cons p ps ih =>
    intro cs
    cases cs with
    | nil => simp [reMatchStart]
    | cons c cs =>
      simp only [List.cons_append, reMatchStart, List.length_cons, List.drop_succ_cons,
        List.append_eq, ih cs, Bool.and_assoc]

/-- Matching a replicated class checks length and the leading characters. -/
theorem reMatchStart_replicate (p : Char → Bool) :
    ∀ (n : Nat) (cs : List Char),
      reMatchStart (List.replicate n p) cs =
        (decide (n ≤ cs.length) && (cs.take n).all p) := by
  intro n
  induction n with
  | zero => intro cs; simp [reMatchStart]
  | succ n ih =>
    intro cs
    cases cs with
    | nil => simp [List.replicate_succ, reMatchStart]
    | cons c cs =>
      simp only [List.replicate_succ, reMatchStart, ih, List.take_succ_cons,
        List.all_cons, List.length_cons]
      have hdec : (decide (n + 1 ≤ cs.length + 1)) = (decide (n ≤ cs.length)) := by
        simp
      rw [hdec]
      cases p c <;> cases decide (n ≤ cs.length) <;> simp

/-- On a 10-character input the ISBN-10 pattern checks 9 leading digits and a
final digit-or-X. -/
theorem reMatchStart_isbn10 (cs : List Char) (h : cs.length = 10) :
    reMatchStart isbnPat10 cs = true ↔
      ((∀ c ∈ cs.take 9, c.isDigit = true) ∧
       (∀ c ∈ cs.drop 9, c.isDigit = true ∨ c = 'X')) := by
  obtain ⟨c, hc⟩ := List.length_eq_one.mp (show (cs.drop 9).length = 1 by simp [h])
  rw [show isbnPat10 = List.replicate 9 isPyDigit ++ [fun c => isPyDigit c || c == 'X']
      from rfl,
    reMatchStart_append_pat, reMatchStart_replicate]
  simp only [List.length_replicate, hc, reMatchStart, Bool.and_true, Bool.and_eq_true,
    decide_eq_true_eq, List.all_eq_true, List.mem_singleton, forall_eq, isPyDigit]
  constructor
  · rintro ⟨⟨-, hall⟩, hlast⟩
    refine ⟨hall, ?_⟩
    rcases (Bool.or_eq_true _ _).mp hlast with hd | hX
    · exact Or.inl hd
    · exact Or.inr (by simpa using hX)
  · rintro ⟨hall, hlast⟩
    refine ⟨⟨by omega, hall⟩, ?_⟩
    rcases hlast with hd | hX
    · exact (Bool.or_eq_true _ _).mpr (Or.inl hd)
    · exact (Bool.or_eq_true _ _).mpr (Or.inr (by simp [hX]))

/-- The reading the specification gives of `validate_isbn`: after deleting hyphens
and spaces, the remainder has length 10 and is 9 decimal digits followed by
a digit or `X`, or has length 13 and is 13 decimal digits. -/
def isbnSpecOk (s : String) : Prop :=
  ((strip_isbn s).length = 10 ∧
    (∀ c ∈ (strip_isbn s).take 9, c.isDigit = true) ∧
    (∀ c ∈ (strip_isbn s).drop 9, c.isDigit = true ∨ c = 'X')) ∨
  ((strip_isbn s).length = 13 ∧ ∀ c ∈ strip_isbn s, c.isDigit = true)

/-- C7: `validate_isbn` returns `True` exactly when, after deleting all
hyphens and spaces, the remainder has length 10 and consists of 9 decimal
digits followed by a digit or the letter `X`, or has length 13 and consists
of 13 decimal digits; every other string is rejected (no checksum). -/
theorem validate_isbn_characterisation (s : String) :
    validate_isbn s = true ↔ isbnSpecOk s := by
  unfold validate_isbn isbnSpecOk
  by_cases h10 : (strip_isbn s).length = 10
  · rw [if_pos h10, reMatchStart_isbn10 _ h10]
    constructor
    · intro h
      exact Or.inl ⟨h10, h.1, h.2⟩
    · rintro (⟨-, h1, h2⟩ | ⟨h13, -⟩)
      · exact ⟨h1, h2⟩
      · omega
  · rw [if_neg h10]
    by_cases h13 : (strip_isbn s).length = 13
    · rw [if_pos h13, show isbnPat13 = List.replicate 13 isPyDigit from rfl,
        reMatchStart_replicate]
      simp only [Bool.and_eq_true, decide_eq_true_eq, List.all_eq_true, isPyDigit]
      rw [List.take_of_length_le (by omega)]
      constructor
      · rintro ⟨-, hall⟩
        exact Or.inr ⟨h13, hall⟩
      · rintro (⟨h, -⟩ | ⟨-, hall⟩)
        · omega
        · exact ⟨by omega, hall⟩
    · rw [if_neg h13]
      constructor
      · intro h
        simp at h
      · rintro (⟨h, -⟩ | ⟨h, -⟩) <;> omega

/-- Witness for C7: a well-formed ISBN-10 is accepted and satisfies the
characterisation. -/
theorem validate_isbn_characterisation_witness : isbnSpecOk "0-306-40615-2" :=
  (validate_isbn_characterisation "0-306-40615-2").mp (by decide)

/-- The reading the specification gives of the ISSN prefix shape: the string begins
with four digits, a hyphen, three digits and a digit-or-X. -/
def issnStartSpec (s : String) : Prop :=
  ∃ (d₁ d₂ d₃ d₄ d₅ d₆ d₇ x : Char) (rest : List Char),
    s.toList = d₁ :: d₂ :: d₃ :: d₄ :: '-' :: d₅ :: d₆ :: d₇ :: x :: rest ∧
    d₁.isDigit = true ∧ d₂.isDigit = true ∧ d₃.isDigit = true ∧ d₄.isDigit = true ∧
    d₅.isDigit = true ∧ d₆.isDigit = true ∧ d₇.isDigit = true ∧
    (x.isDigit = true ∨ x = 'X')

/-- C8: the DOI and ISSN validators match only a prefix of their input:
whatever they accept they still accept after appending arbitrary trailing
characters, and `validate_issn` accepts every string beginning with four
digits, a hyphen, three digits and a digit-or-X. -/
theorem validators_ignore_trailing_input (s t : String) :
    (validate_doi s = true → validate_doi (s ++ t) = true) ∧
    (validate_issn s = true → validate_issn (s ++ t) = true) ∧
    (issnStartSpec s → validate_issn s = true) := by
  have hlist : (s ++ t).toList = s.toList ++ t.toList := by
    simp [String.toList, String.data_append]
  refine ⟨?_, ?_, ?_⟩
  · intro h
    unfold validate_doi at h ⊢
    rw [List.any_eq_true] at h ⊢
    obtain ⟨i, hi, hmatch⟩ := h
    rw [List.mem_range] at hi
    refine ⟨i, ?_, ?_⟩
    · rw [List.mem_range, hlist, List.length_append]
      omega
    · rw [hlist, List.take_append_of_le_length (by omega)]
      exact hmatch
  · intro h
    unfold validate_issn at h ⊢
    rw [hlist]
    exact reMatchStart_append_input issnPat s.toList t.toList h
  · rintro ⟨d₁, d₂, d₃, d₄, d₅, d₆, d₇, x, rest, hshape, h₁, h₂, h₃, h₄, h₅, h₆, h₇, hx⟩
    unfold validate_issn
    rw [hshape,
      show issnPat = [isPyDigit, isPyDigit, isPyDigit, isPyDigit, (fun c => c == '-'),
        isPyDigit, isPyDigit, isPyDigit, (fun c => isPyDigit c || c == 'X')] from rfl]
    rcases hx with hxd | hxX
    · simp [reMatchStart, isPyDigit, h₁, h₂, h₃, h₄, h₅, h₆, h₇, hxd]
    · subst hxX
      simp [reMatchStart, isPyDigit, h₁, h₂, h₃, h₄, h₅, h₆, h₇]

/-- Witness for C8: a valid DOI keeps validating after appending garbage, an
accepted ISSN keeps validating after appending garbage, and an ISSN-shaped
string with trailing characters is accepted. -/
theorem validators_ignore_trailing_input_witness :
    validate_doi ("10.1000/xyz123" ++ "!!trailing??") = true ∧
    validate_issn ("2049-3630" ++ " and anything after") = true ∧
    validate_issn "2049-363Xfoo" = true := by
  refine ⟨?_, ?_, ?_⟩
  · exact (validators_ignore_trailing_input "10.1000/xyz123" "!!trailing??").1 (by decide)
  · exact (validators_ignore_trailing_input "2049-3630" " and anything after").2.1 (by decide)
  · exact (validators_ignore_trailing_input "2049-363Xfoo" "").2.2
      ⟨'2', '0', '4', '9', '3', '6', '3', 'X', "foo".toList, by decide, by decide,
        by decide, by decide, by decide, by decide, by decide, by decide,
        Or.inr (by decide)⟩

/-!
## Duplicate detection: `find_duplicates_by_field` (source lines 296-312)

The function folds over the items, grouping those with a truthy (non-empty)
field value into a `defaultdict(list)` keyed by the lowercased value, then
keeps only groups with more than one member.
-/

/-- Python `str.lower` on the ASCII fragment: lowercase each character. -/
def pyLower (s : String) : String := String.mk (s.toList.map Char.toLower)

/-- Append `it` to the group keyed `k`, preserving insertion order of keys,
as `defaultdict(list)[k].append(it)` does. -/
def insertGroup : List (String × List Item) → String → Item → List (String × List Item)
  | [], k, it => [(k, [it])]
  | (k₀, l) :: rest, k, it =>
    if k₀ = k then (k₀, l ++ [it]) :: rest else (k₀, l) :: insertGroup rest k it

/-- The `by_value` defaultdict built inside `find_duplicates_by_field`. -/
def group_by_field (items : List Item) (field : String) : List (String × List Item) :=
  items.foldl
    (fun acc it =>
      if it.getField field ≠ "" then insertGroup acc (pyLower (it.getField field)) it
      else acc)
    []

/-- Embedding of `find_duplicates_by_field`: the grouping restricted to
groups with more than one member. -/
def find_duplicates_by_field (items : List Item) (field : String) :
    List (String × List Item) :=
  (group_by_field items field).filter (fun p => decide (1 < p.2.length))

/-- The group stored under key `v`, empty when the key is absent. -/
def findGroup (acc : List (String × List Item)) (v : String) : List Item :=
  match acc.lookup v with
  | some l => l
  | none => []

/-- Keys of an association list of groups. -/
def keysOf (acc : List (String × List Item)) : List String := acc.map (fun p => p.1)

theorem findGroup_nil (v : String) : findGroup [] v = [] := rfl

theorem findGroup_cons (k₀ : String) (l : List Item) (rest : List (String × List Item))
    (v : String) :
    findGroup ((k₀, l) :: rest) v = if v = k₀ then l else findGroup rest v := by
  by_cases h : v = k₀
  · subst h
    simp [findGroup, List.lookup_cons]
  · simp [findGroup, List.lookup_cons, beq_false_of_ne h, h]

theorem findGroup_insertGroup (k : String) (it : Item) :
    ∀ (acc : List (String × List Item)) (v : String),
      findGroup (insertGroup acc k it) v =
        findGroup acc v ++ (if k = v then [it] else []) := by
  intro acc
  induction acc with
  | nil =>
    intro v
    by_cases h : v = k
    · subst h
      simp [insertGroup, findGroup_cons, findGroup_nil]
    · have h' : ¬ k = v := fun hh => h hh.symm
      simp [insertGroup, findGroup_cons, findGroup_nil, h, h']
  | cons p rest ih =>
    intro v
    obtain ⟨k₀, l⟩ := p
    by_cases h₀ : k₀ = k
    · subst h₀
      simp only [insertGroup, if_pos rfl]
      by_cases hv : v = k₀
      · subst hv
        simp [findGroup_cons]
      · have hv' : ¬ k₀ = v := fun hh => hv hh.symm
        simp [findGroup_cons, hv, hv']
    · simp only [insertGroup, if_neg h₀]
      by_cases hv : v = k₀
      · subst hv
        have hkv : ¬ k = v := fun hh => h₀ hh.symm
        simp [findGroup_cons, hkv]
      · simp [findGroup_cons, hv, ih v]

theorem keysOf_insertGroup (k : String) (it : Item) :
    ∀ acc : List (String × List Item),
      keysOf (insertGroup acc k it) =
        if k ∈ keysOf acc then keysOf acc else keysOf acc ++ [k] := by
  intro acc
  induction acc with
  | nil => simp [insertGroup, keysOf]
  | cons p rest ih =>
    obtain ⟨k₀, l⟩ := p
    by_cases h₀ : k₀ = k
    · subst h₀
      simp [insertGroup, keysOf]
    · have hk : ¬ k = k₀ := fun hh => h₀ hh.symm
      simp only [insertGroup, if_neg h₀]
      have hkeys : keysOf ((k₀, l) :: insertGroup rest k it)
          = k₀ :: keysOf (insertGroup rest k it) := rfl
      rw [hkeys, ih, show keysOf ((k₀, l) :: rest) = k₀ :: keysOf rest from rfl]
      by_cases hmem : k ∈ keysOf rest
      · rw [if_pos hmem, if_pos (List.mem_cons.mpr (Or.inr hmem))]
      · rw [if_neg hmem, if_neg (by
          intro hh
          rcases List.mem_cons.mp hh with h | h
          · exact hk h
          · exact hmem h)]
        rfl

theorem nodup_keysOf_insertGroup (k : String) (it : Item)
    (acc : List (String × List Item)) (h : (keysOf acc).Nodup) :
    (keysOf (insertGroup acc k it)).Nodup := by
  rw [keysOf_insertGroup]
  by_cases hmem : k ∈ keysOf acc
  · rwa [if_pos hmem]
  · rw [if_neg hmem]
    simpa [List.nodup_append] using ⟨h, hmem⟩

/-- The predicate deciding whether `it` lands in the group keyed `v`. -/
def inGroupKeyed (field v : String) (it : Item) : Bool :=
  (it.getField field != "") && (pyLower (it.getField field) == v)

theorem group_by_field_invariant (field : String) :
    ∀ (items : List Item) (acc : List (String × List Item)),
      (∀ v, findGroup (items.foldl
          (fun acc it =>
            if it.getField field ≠ "" then insertGroup acc (pyLower (it.getField field)) it
            else acc) acc) v =
        findGroup acc v ++ items.filter (inGroupKeyed field v)) ∧
      (∀ v, v ∈ keysOf (items.foldl
          (fun acc it =>
            if it.getField field ≠ "" then insertGroup acc (pyLower (it.getField field)) it
            else acc) acc) ↔
        v ∈ keysOf acc ∨ items.filter (inGroupKeyed field v) ≠ []) ∧
      ((keysOf acc).Nodup →
        (keysOf (items.foldl
          (fun acc it =>
            if it.getField field ≠ "" then insertGroup acc (pyLower (it.getField field)) it
            else acc) acc)).Nodup) := by
  intro items
  induction items with
  | nil => intro acc; simp
  | cons it rest ih =>
    intro acc
    by_cases hne : it.getField field ≠ ""
    · simp only [List.foldl_cons, if_pos hne]
      obtain ⟨ih₁, ih₂, ih₃⟩ := ih (insertGroup acc (pyLower (it.getField field)) it)
      refine ⟨?_, ?_, ?_⟩
      · intro v
        rw [ih₁ v, findGroup_insertGroup]
        by_cases hv : pyLower (it.getField field) = v
        · rw [if_pos hv]
          have : inGroupKeyed field v it = true := by
            simp [inGroupKeyed, hne, hv]
          simp [List.filter_cons, this]
        · rw [if_neg hv]
          have : inGroupKeyed field v it = false := by
            simp [inGroupKeyed, hv]
          simp [List.filter_cons, this]
      · intro v
        rw [ih₂ v, keysOf_insertGroup]
        by_cases hv : pyLower (it.getField field) = v
        · have hit : inGroupKeyed field v it = true := by
            simp [inGroupKeyed, hne, hv]
          subst hv
          by_cases hmem : pyLower (it.getField field) ∈ keysOf acc
          · simp [if_pos hmem, hmem, List.filter_cons, hit]
          · simp only [if_neg hmem, List.filter_cons, hit, if_true]
            constructor
            · rintro (h | h)
              · rcases List.mem_append.mp h with h | h
                · exact Or.inl h
                · exact Or.inr (by simp)
              · exact Or.inr (by simp)
            · rintro (h | h)
              · exact Or.inl (List.mem_append.mpr (Or.inl h))
              · exact Or.inl (List.mem_append.mpr (Or.inr (by simp)))
        · have hit : inGroupKeyed field v it = false := by
            simp [inGroupKeyed, hv]
          by_cases hmem : pyLower (it.getField field) ∈ keysOf acc
          · simp [if_pos hmem, List.filter_cons, hit]
          · simp only [if_neg hmem, List.filter_cons, hit, Bool.false_eq_true, if_false]
            constructor
            · rintro (h | h)
              · rcases List.mem_append.mp h with h | h
                · exact Or.inl h
                · rcases List.mem_singleton.mp h with rfl
                  exact absurd rfl hv
              · exact Or.inr h
            · rintro (h | h)
              · exact Or.inl (List.mem_append.mpr (Or.inl h))
              · exact Or.inr h
      · intro hnd
        exact ih₃ (nodup_keysOf_insertGroup _ _ _ hnd)
    · simp only [List.foldl_cons, if_neg hne]
      push_neg at hne
      obtain ⟨ih₁, ih₂, ih₃⟩ := ih acc
      have hit : ∀ v, inGroupKeyed field v it = false := by
        intro v
        simp [inGroupKeyed, hne]
      refine ⟨?_, ?_, ih₃⟩
      · intro v
        rw [ih₁ v]
        simp [List.filter_cons, hit v]
      · intro v
        rw [ih₂ v]
        simp [List.filter_cons, hit v]

/-- Looking a key up in an association list whose keys are distinct finds
exactly the stored pair. -/
theorem mem_iff_lookup_of_nodup :
    ∀ (acc : List (String × List Item)), (keysOf acc).Nodup →
      ∀ (v : String) (g : List Item), (v, g) ∈ acc ↔ acc.lookup v = some g := by
  intro acc
  induction acc with
  | nil => intro _ v g; simp [List.lookup]
  | cons p rest ih =>
    intro hnd v g
    obtain ⟨k₀, l⟩ := p
    have hnd' : k₀ ∉ keysOf rest ∧ (keysOf rest).Nodup := by
      simpa [keysOf, List.nodup_cons] using hnd
    by_cases hv : v = k₀
    · subst hv
      simp only [List.lookup_cons, beq_self_eq_true, List.mem_cons]
      constructor
      · rintro (h | h)
        · rcases h with ⟨rfl, rfl⟩
          rfl
        · exfalso
          exact hnd'.1 (by
            have : (fun p => p.1) ((v, g) : String × List Item) ∈ keysOf rest :=
              List.mem_map_of_mem (fun p => p.1) h
            simpa [keysOf] using this)
      · intro h
        exact Or.inl (by simpa using h.symm)
    · simp only [List.lookup_cons, beq_false_of_ne hv, List.mem_cons]
      rw [← ih hnd'.2 v g]
      constructor
      · rintro (h | h)
        · rcases h with ⟨rfl, rfl⟩
          exact absurd rfl hv
        · exact h
      · exact Or.inr

theorem lookup_eq_some_findGroup :
    ∀ (acc : List (String × List Item)) (v : String),
      (v ∈ keysOf acc → acc.lookup v = some (findGroup acc v)) ∧
      (v ∉ keysOf acc → acc.lookup v = none) := by
  intro acc
  induction acc with
  | nil => intro v; simp [keysOf, List.lookup]
  | cons p rest ih =>
    intro v
    obtain ⟨k₀, l⟩ := p
    by_cases hv : v = k₀
    · subst hv
      simp [keysOf, List.lookup_cons, findGroup_cons]
    · simp only [keysOf, List.map_cons, List.mem_cons, List.lookup_cons,
        beq_false_of_ne hv, findGroup_cons, if_neg hv]
      constructor
      · rintro (h | h)
        · exact absurd h hv
        · exact (ih v).1 h
      · intro h
        exact (ih v).2 (fun hmem => h (Or.inr hmem))

/-- C4: duplicate detection is exact-key grouping.  A pair `(v, g)` is in
the result of `find_duplicates_by_field` exactly when `g` is the list of
items whose (non-empty) field value lowercases to `v` and `g` has at least
two members; items with a missing or empty field appear in no returned
group; and every item with a non-empty value lies in exactly one group of
the underlying grouping, the one keyed by its lowercased value. -/
theorem find_duplicates_by_field_characterisation (items : List Item) (field : String)
    (v : String) (g : List Item) (it : Item) :
    ((v, g) ∈ find_duplicates_by_field items field ↔
      (g = items.filter (inGroupKeyed field v) ∧ 1 < g.length)) ∧
    (it.getField field = "" → (v, g) ∈ find_duplicates_by_field items field → it ∉ g) ∧
    (it ∈ items → it.getField field ≠ "" →
      (it ∈ findGroup (group_by_field items field) (pyLower (it.getField field)) ∧
       ∀ w, it ∈ findGroup (group_by_field items field) w →
         w = pyLower (it.getField field))) := by
  obtain ⟨hfind, hkeys, hnodup⟩ := group_by_field_invariant field items []
  have h1 : ∀ w, findGroup (group_by_field items field) w =
      items.filter (inGroupKeyed field w) := by
    intro w
    have := hfind w
    rw [show group_by_field items field = items.foldl
        (fun acc it =>
          if it.getField field ≠ "" then insertGroup acc (pyLower (it.getField field)) it
          else acc) [] from rfl]
    simpa [findGroup_nil] using this
  have h2 : ∀ w, w ∈ keysOf (group_by_field items field) ↔
      items.filter (inGroupKeyed field w) ≠ [] := by
    intro w
    have := hkeys w
    rw [show group_by_field items field = items.foldl
        (fun acc it =>
          if it.getField field ≠ "" then insertGroup acc (pyLower (it.getField field)) it
          else acc) [] from rfl]
    simpa [keysOf] using this
  have h3 : (keysOf (group_by_field items field)).Nodup := by
    have := hnodup (by simp [keysOf])
    rw [show group_by_field items field = items.foldl
        (fun acc it =>
          if it.getField field ≠ "" then insertGroup acc (pyLower (it.getField field)) it
          else acc) [] from rfl]
    exact this
  have hmain : (v, g) ∈ find_duplicates_by_field items field ↔
      (g = items.filter (inGroupKeyed field v) ∧ 1 < g.length) := by
    rw [show find_duplicates_by_field items field
        = (group_by_field items field).filter (fun p => decide (1 < p.2.length)) from rfl,
      List.mem_filter, mem_iff_lookup_of_nodup _ h3]
    constructor
    · rintro ⟨hlk, hlen⟩
      have hv : v ∈ keysOf (group_by_field items field) := by
        by_contra hnv
        rw [(lookup_eq_some_findGroup _ v).2 hnv] at hlk
        exact Option.noConfusion hlk
      rw [(lookup_eq_some_findGroup _ v).1 hv] at hlk
      have hg : g = findGroup (group_by_field items field) v :=
        (Option.some.injEq .. ▸ hlk).symm
      subst hg
      exact ⟨(h1 v).symm ▸ rfl, by simpa using hlen⟩
    · rintro ⟨hg, hlen⟩
      have hne : items.filter (inGroupKeyed field v) ≠ [] := by
        intro h
        rw [hg, h] at hlen
        simp at hlen
      have hv : v ∈ keysOf (group_by_field items field) := (h2 v).mpr hne
      rw [(lookup_eq_some_findGroup _ v).1 hv, h1 v]
      exact ⟨by rw [hg], by simpa using hlen⟩
  refine ⟨hmain, ?_, ?_⟩
  · intro hempty hmem hing
    have hg := (hmain.mp hmem).1
    rw [hg] at hing
    have := (List.mem_filter.mp hing).2
    simp [inGroupKeyed, hempty] at this
  · intro hit hne
    constructor
    · rw [h1]
      exact List.mem_filter.mpr ⟨hit, by simp [inGroupKeyed, hne]⟩
    · intro w hw
      rw [h1] at hw
      have := (List.mem_filter.mp hw).2
      simp only [inGroupKeyed, Bool.and_eq_true, beq_iff_eq] at this
      exact this.2.symm

/-- Three sample items for the duplicate-detection witness: two share a DOI
up to case, one has no DOI. -/
def dupW1 : Item := ⟨"A", "journalArticle", none, [("DOI", "10.1/X")], [], []⟩

def dupW2 : Item := ⟨"B", "journalArticle", none, [("DOI", "10.1/x")], [], []⟩

def dupW3 : Item := ⟨"C", "journalArticle", none, [], [], []⟩

/-- Witness for C4: the two case-variant DOIs form the one duplicate group. -/
theorem find_duplicates_by_field_witness :
    ("10.1/x", [dupW1, dupW2]) ∈ find_duplicates_by_field [dupW1, dupW2, dupW3] "DOI" :=
  (find_duplicates_by_field_characterisation [dupW1, dupW2, dupW3] "DOI"
      "10.1/x" [dupW1, dupW2] dupW3).1.mpr ⟨by decide, by decide⟩

/-!
## Tag similarity: `all_tags` (source lines 176-185) and `similar_tags`
(source lines 356-371)

`all_tags` collects every non-empty tag string and returns a Counter
(tag, count), whose keys keep first-occurrence order; `similar_tags`
compares each pair of distinct tags with `difflib.SequenceMatcher.ratio`.
The ratio itself is a Python stdlib primitive external to this repository,
so it enters the embedding as an abstract rational-valued function.
-/

/-- The flat list of non-empty tag strings over all items. -/
def collect_tags (items : List Item) : List String :=
  items.flatMap (fun it => it.tags.filter (fun t => t != ""))

/-- The keys of a `Counter` built from `l`: distinct values in
first-occurrence order. -/
def counter_keys (l : List String) : List String :=
  l.foldl (fun acc t => if t ∈ acc then acc else acc ++ [t]) []

/-- Embedding of `all_tags`: each distinct non-empty tag with its count. -/
def all_tags (items : List Item) : List (String × Nat) :=
  (counter_keys (collect_tags items)).map
    (fun t => (t, (collect_tags items).count t))

/-- Embedding of `similar_tags`: for each tag in the library, the other tags
whose edit ratio against it reaches the threshold; tags with an empty
similarity list are dropped.  `ratio t tag` stands for
`SequenceMatcher(None, t, tag).ratio()`. -/
def similar_tags (ratio : String → String → ℚ) (threshold : ℚ)
    (items : List Item) : List (String × List String) :=
  let tags := (all_tags items).map (fun p => p.1)
  (tags.map (fun tag =>
    (tag, tags.filter (fun t => t != tag && decide (threshold ≤ ratio t tag))))).filter
    (fun p => !p.2.isEmpty)

theorem counter_keys_invariant (l : List String) :
    ∀ acc : List String, (∀ t, t ∈ l.foldl
        (fun acc t => if t ∈ acc then acc else acc ++ [t]) acc ↔
          t ∈ acc ∨ t ∈ l) ∧
      (acc.Nodup → (l.foldl (fun acc t => if t ∈ acc then acc else acc ++ [t]) acc).Nodup) := by
  induction l with
  | nil => intro acc; simp
  | cons x l ih =>
    intro acc
    simp only [List.foldl_cons]
    by_cases hx : x ∈ acc
    · rw [if_pos hx]
      obtain ⟨ih₁, ih₂⟩ := ih acc
      refine ⟨?_, ih₂⟩
      intro t
      rw [ih₁ t, List.mem_cons]
      constructor
      · rintro (h | h)
        · exact Or.inl h
        · exact Or.inr (Or.inr h)
      · rintro (h | h | h)
        · exact Or.inl h
        · exact Or.inl (h ▸ hx)
        · exact Or.inr h
    · rw [if_neg hx]
      obtain ⟨ih₁, ih₂⟩ := ih (acc ++ [x])
      refine ⟨?_, ?_⟩
      · intro t
        rw [ih₁ t, List.mem_append, List.mem_singleton, List.mem_cons]
        tauto
      · intro hnd
        exact ih₂ (by simpa [List.nodup_append] using ⟨hnd, hx⟩)

theorem counter_keys_nodup (l : List String) : (counter_keys l).Nodup :=
  (counter_keys_invariant l []).2 List.nodup_nil

/-- C6: tag similarity is string edit-ratio grouping.  A pair `(tag, l)` is
in the result of `similar_tags` exactly when `tag` occurs among the library
tag keys and `l` is the nonempty list of the other tags whose ratio against
`tag` reaches the threshold; consequently a tag is never similar to itself
and tags with no similar partner never appear as keys. -/
theorem similar_tags_characterisation (ratio : String → String → ℚ) (threshold : ℚ)
    (items : List Item) (tag : String) (l : List String) :
    ((tag, l) ∈ similar_tags ratio threshold items ↔
      (tag ∈ (all_tags items).map (fun p => p.1) ∧
       l = ((all_tags items).map (fun p => p.1)).filter
             (fun t => t != tag && decide (threshold ≤ ratio t tag)) ∧
       l ≠ [])) ∧
    ((tag, l) ∈ similar_tags ratio threshold items → tag ∉ l) := by
  have hmain : (tag, l) ∈ similar_tags ratio threshold items ↔
      (tag ∈ (all_tags items).map (fun p => p.1) ∧
       l = ((all_tags items).map (fun p => p.1)).filter
             (fun t => t != tag && decide (threshold ≤ ratio t tag)) ∧
       l ≠ []) := by
    rw [show similar_tags ratio threshold items
        = (((all_tags items).map (fun p => p.1)).map (fun tag =>
            (tag, ((all_tags items).map (fun p => p.1)).filter
              (fun t => t != tag && decide (threshold ≤ ratio t tag))))).filter
            (fun p => !p.2.isEmpty) from rfl,
      List.mem_filter, List.mem_map]
    constructor
    · rintro ⟨⟨t, htmem, heq⟩, hne⟩
      have ht : t = tag := congrArg Prod.fst heq
      subst ht
      have hl : ((all_tags items).map (fun p => p.1)).filter
          (fun u => u != t && decide (threshold ≤ ratio u t)) = l :=
        congrArg Prod.snd heq
      refine ⟨htmem, hl.symm, ?_⟩
      intro hnil
      rw [hnil] at hne
      simp at hne
    · rintro ⟨hmem, hl, hne⟩
      refine ⟨⟨tag, hmem, by rw [← hl]⟩, ?_⟩
      simpa using hne
  refine ⟨hmain, ?_⟩
  intro hmem
  have hl := (hmain.mp hmem).2.1
  intro hin
  rw [hl] at hin
  have := (List.mem_filter.mp hin).2
  simp at this

/-- Items for the tag-similarity witness. -/
def tagW1 : Item := ⟨"A", "journalArticle", none, [], ["ml", "ai"], []⟩

/-- A concrete similarity oracle for the witness: only the pair
`("ml", "ai")` and its mirror score 1, all else 0. -/
def ratioW : String → String → ℚ :=
  fun a b => if (a == "ml" && b == "ai") || (a == "ai" && b == "ml") then 1 else 0

/-- Witness for C6: with threshold 1 the tag `ai` is reported similar to
`ml`, and no tag is reported similar to itself. -/
theorem similar_tags_witness :
    ("ml", ["ai"]) ∈ similar_tags ratioW 1 [tagW1] ∧
    "ml" ∉ (["ai"] : List String) := by
  constructor
  · exact (similar_tags_characterisation ratioW 1 [tagW1] "ml" ["ai"]).1.mpr
      ⟨by decide, by decide, by decide⟩
  · exact (similar_tags_characterisation ratioW 1 [tagW1] "ml" ["ai"]).2
      ((similar_tags_characterisation ratioW 1 [tagW1] "ml" ["ai"]).1.mpr
        ⟨by decide, by decide, by decide⟩)

/-!
## The HTTP backend and the write-side operations
(source lines 494-599, 715-728, 1287-1391, 1543-1666)

`Backend` packs the oracles the local API provides: the library contents
(served page-wise by `zot.items`), per-key item lookup (`zot.item`), and the
success of write requests.  `ZState` is the mutable state the toolkit keeps
on the client object: the single `_library_cache` attribute.  Every
operation returns its result, the client state after the call, and the list
of HTTP requests it issued; a raised exception is an `Except.error`.
-/

/-- An item paired with the `_children` list that
`_get_library_with_children` attaches to it. -/
structure ItemWithChildren where
  item : Item
  children : List Item
deriving Repr, DecidableEq

/-- The state the toolkit stores on the client object: the one cache. -/
structure ZState where
  cache : Option (List ItemWithChildren)
deriving Repr, DecidableEq

/-- The HTTP backend: library contents plus oracles for the outcome of the
individual requests. -/
structure Backend where
  library : List Item
  getItem : String → Option Item
  updateOk : Item → Bool
  deleteOk : String → Bool
  collectionItems : String → Option (List Item)
  deleteCollectionOk : String → Bool

/-- The page `zot.items(start=start, limit=100)` serves. -/
def Backend.pageFun (b : Backend) (start : Nat) : List Item :=
  (b.library.drop start).take 100

/-- The page served with an `itemType` filter. -/
def Backend.pageFunType (b : Backend) (ty : String) (start : Nat) : List Item :=
  (((b.library.filter (fun it => it.itemType == ty))).drop start).take 100

/-- Enough fuel for `_all_items` over a library of the given size. -/
def paginationFuel (l : List Item) : Nat := l.length / 100 + 1

/-- `list(_all_items(zot))`: the full pagination sweep, with its requests. -/
def zot_all_items (b : Backend) : List Item × List Req :=
  let r := _all_items b.pageFun (paginationFuel b.library) 0
  (r.1, r.2.map Req.pageReq)

/-- `list(_all_items(zot, itemType=ty))`. -/
def zot_all_items_type (b : Backend) (ty : String) : List Item × List Req :=
  let filtered := b.library.filter (fun it => it.itemType == ty)
  let r := _all_items (b.pageFunType ty) (paginationFuel filtered) 0
  (r.1, r.2.map Req.pageReq)

theorem chunk_flatten (l : List Item) :
    ∀ m : Nat,
      ((List.range m).map (fun j => (l.drop (100 * j)).take 100)).flatten =
        l.take (100 * m) := by
  intro m
  induction m with
  | zero => simp
  | succ m ih =>
    rw [List.range_succ, List.map_append, List.flatten_append, ih]
    simp only [List.map_cons, List.map_nil, List.flatten_cons, List.flatten_nil,
      List.append_nil]
    rw [← List.take_add, show 100 * m + 100 = 100 * (m + 1) from by ring]

/-- The pagination sweep over a well-behaved page function returns exactly
the library. -/
theorem all_items_sweep (l : List Item) :
    (_all_items (fun start => (l.drop start).take 100) (l.length / 100 + 1) 0).1 = l := by
  set k := l.length / 100 with hk
  have hfull : ∀ j, j < k → (((l.drop (100 * j)).take 100)).length = 100 := by
    intro j hj
    have hle : 100 * (j + 1) ≤ l.length := by omega
    simp only [List.length_take, List.length_drop]
    omega
  have hshort : (((l.drop (100 * k)).take 100)).length < 100 := by
    simp only [List.length_take, List.length_drop]
    omega
  have h := _all_items_spec (fun start => (l.drop start).take 100) k (k + 1) 0
    (by simpa using hfull) (by simpa using hshort) (Nat.le_refl _)
  have hfuel_eq : l.length / 100 + 1 = k + 1 := by omega
  rw [hfuel_eq, h]
  have hch := chunk_flatten l (k + 1)
  simp only [Nat.zero_add] at hch ⊢
  rw [hch]
  apply List.take_of_length_le
  omega

theorem zot_all_items_fst (b : Backend) : (zot_all_items b).1 = b.library := by
  have h := all_items_sweep b.library
  simpa [zot_all_items, Backend.pageFun, paginationFuel] using h

/-- One per-operation result: the value (or propagated exception), the
client state after the call, and the issued requests in order. -/
structure OpResult (α : Type) where
  result : Except String α
  state : ZState
  trace : List Req

/-- `zot.update_item(item)`: one write request; the response carries the
submitted item. -/
def zot_update_item (b : Backend) (it : Item) : Except String Item :=
  if b.updateOk it then Except.ok it else Except.error "update failed"

/-- `item["data"][key] = value` over the association-list model. -/
def setField (l : List (String × String)) (k v : String) : List (String × String) :=
  if l.any (fun p => p.1 == k) then
    l.map (fun p => if p.1 == k then (p.1, v) else p)
  else l ++ [(k, v)]

/-- `for key, value in fields.items(): item["data"][key] = value`. -/
def setFields (it : Item) (fields : List (String × String)) : Item :=
  { it with fields := fields.foldl (fun acc p => setField acc p.1 p.2) it.fields }

/-- Embedding of `update_item_fields`: fetch the item, set the fields,
submit the update.  No exception handling, no cache interaction. -/
def update_item_fields (b : Backend) (st : ZState) (item_key : String)
    (fields : List (String × String)) : OpResult Item :=
  match b.getItem item_key with
  | none => ⟨Except.error ("item not found: " ++ item_key), st, [Req.readReq item_key]⟩
  | some item =>
    ⟨zot_update_item b (setFields item fields), st,
     [Req.readReq item_key, Req.writeReq item_key]⟩

/-- Embedding of `add_tags_to_item`: fetch, append the tags that are not
already present, submit. -/
def add_tags_to_item (b : Backend) (st : ZState) (item_key : String)
    (tags : List String) : OpResult Item :=
  match b.getItem item_key with
  | none => ⟨Except.error ("item not found: " ++ item_key), st, [Req.readReq item_key]⟩
  | some item =>
    let new_tags := tags.foldl
      (fun acc tag => if tag ∈ acc then acc else acc ++ [tag]) item.tags
    ⟨zot_update_item b { item with tags := new_tags }, st,
     [Req.readReq item_key, Req.writeReq item_key]⟩

/-- Embedding of `remove_tags_from_item`. -/
def remove_tags_from_item (b : Backend) (st : ZState) (item_key : String)
    (tags : List String) : OpResult Item :=
  match b.getItem item_key with
  | none => ⟨Except.error ("item not found: " ++ item_key), st, [Req.readReq item_key]⟩
  | some item =>
    ⟨zot_update_item b { item with tags := item.tags.filter (fun t => !tags.elem t) }, st,
     [Req.readReq item_key, Req.writeReq item_key]⟩

/-- Embedding of `move_item_to_collection`: the collection list is replaced
by the single target key. -/
def move_item_to_collection (b : Backend) (st : ZState) (item_key : String)
    (collection_key : String) : OpResult Item :=
  match b.getItem item_key with
  | none => ⟨Except.error ("item not found: " ++ item_key), st, [Req.readReq item_key]⟩
  | some item =>
    ⟨zot_update_item b { item with collections := [collection_key] }, st,
     [Req.readReq item_key, Req.writeReq item_key]⟩

/-- Embedding of `add_item_to_collection`: appends the target key when it is
not already present. -/
def add_item_to_collection (b : Backend) (st : ZState) (item_key : String)
    (collection_key : String) : OpResult Item :=
  match b.getItem item_key with
  | none => ⟨Except.error ("item not found: " ++ item_key), st, [Req.readReq item_key]⟩
  | some item =>
    let collections := if collection_key ∈ item.collections then item.collections
      else item.collections ++ [collection_key]
    ⟨zot_update_item b { item with collections := collections }, st,
     [Req.readReq item_key, Req.writeReq item_key]⟩

/-- Embedding of `delete_item`: a single delete request, raw response, no
exception handling. -/
def delete_item (b : Backend) (st : ZState) (item_key : String) : OpResult Unit :=
  ⟨if b.deleteOk item_key then Except.ok () else Except.error "delete failed",
   st, [Req.deleteReq item_key]⟩

/-- The result dict of `merge_tags`. -/
structure MergeResult where
  success : Bool
  updated_items : Nat
  message : String
deriving Repr, DecidableEq

/-- The per-item tag rewrite inside `merge_tags`: source tags are replaced
by the target tag, duplicates are dropped, and the flag records whether any
source tag occurred. -/
def merge_tag_fold (source_tags : List String) (target_tag : String)
    (current_tags : List String) : List String × Bool :=
  current_tags.foldl
    (fun acc tag =>
      if tag ∈ source_tags then
        (if target_tag ∈ acc.1 then acc.1 else acc.1 ++ [target_tag], true)
      else if tag ∈ acc.1 then acc
      else (acc.1 ++ [tag], acc.2))
    ([], false)

/-- Embedding of `merge_tags`: sweep the library, rewrite the tags of every
item carrying a source tag, submit one update per changed item (failures are
swallowed item by item), and return a success dict.  The whole body sits in
a `try/except`, so no exception escapes. -/
def merge_tags (b : Backend) (st : ZState) (source_tags : List String)
    (target_tag : String) : MergeResult × ZState × List Req :=
  let fetched := zot_all_items b
  let r := fetched.1.foldl
    (fun (acc : Nat × List Req) item =>
      let m := merge_tag_fold source_tags target_tag item.tags
      if m.2 then
        match zot_update_item b { item with tags := m.1 } with
        | Except.ok _ => (acc.1 + 1, acc.2 ++ [Req.writeReq item.key])
        | Except.error _ => (acc.1, acc.2 ++ [Req.writeReq item.key])
      else acc)
    (0, [])
  (⟨true, r.1, "Tags merged successfully"⟩, st, fetched.2 ++ r.2)

/-- The result dict of `merge_collections`. -/
structure MergeCollectionsResult where
  success : Bool
  moved_items : Nat
  failed_sources : List String
deriving Repr, DecidableEq

/-- Embedding of `merge_collections`: per source collection, fetch its items
(failure marks the source failed), add each to the target (failures
swallowed), then delete the source collections (failures swallowed); the
outer `try/except` returns a dict in every case. -/
def merge_collections (b : Backend) (st : ZState) (source_keys : List String)
    (target_key : String) : MergeCollectionsResult × ZState × List Req :=
  let step := fun (acc : Nat × List String × List Req) (source_key : String) =>
    match b.collectionItems source_key with
    | none => (acc.1, acc.2.1 ++ [source_key], acc.2.2 ++ [Req.readReq source_key])
    | some items =>
      let inner := items.foldl
        (fun (a : Nat × List Req) item =>
          let r := add_item_to_collection b st item.key target_key
          match r.result with
          | Except.ok _ => (a.1 + 1, a.2 ++ r.trace)
          | Except.error _ => (a.1, a.2 ++ r.trace))
        (acc.1, acc.2.2 ++ [Req.readReq source_key])
      (inner.1, acc.2.1, inner.2)
  let moved := source_keys.foldl step (0, [], [])
  let deletes := source_keys.map Req.deleteReq
  (⟨true, moved.1, moved.2.1⟩, st, moved.2.2 ++ deletes)

/-- Whether the item at index `i` is the last occurrence of its key, i.e.
the object `items_by_key` maps that key to. -/
def is_last_occurrence (items : List Item) (i : Nat) (k : String) : Bool :=
  (items.drop (i + 1)).all (fun it => it.key != k)

/-- The child-grouping step of `_get_library_with_children`: attachments and
notes whose truthy `parentItem` is a library key are attached to the item
`items_by_key` holds for that key (the last occurrence). -/
def build_children (items attachments notes : List Item) : List ItemWithChildren :=
  let kids := attachments ++ notes
  items.mapIdx (fun i it =>
    ⟨it,
     if is_last_occurrence items i it.key ∧ it.key ≠ "" then
       kids.filter (fun c => c.parentItem == some it.key)
     else []⟩)

/-- Embedding of `_get_library_with_children`: return the cache when it is
set (no request), otherwise fetch items, attachments and notes, group the
children, and store the result in the cache. -/
def _get_library_with_children (b : Backend) (st : ZState) :
    List ItemWithChildren × ZState × List Req :=
  match st.cache with
  | some cached => (cached, st, [])
  | none =>
    let fi := zot_all_items b
    let fa := zot_all_items_type b "attachment"
    let fn := zot_all_items_type b "note"
    let result := build_children fi.1 fa.1 fn.1
    (result, ⟨some result⟩, fi.2 ++ fa.2 ++ fn.2)

/-- The result dict shared by the five batch operations. -/
structure BatchResult where
  success : List String
  failed : List String
deriving Repr, DecidableEq

/-- One iteration of a batch loop: the key joins `success` or `failed`
according to whether the wrapped call raised. -/
def batch_step (ok : String → Bool) (r : BatchResult) (item_key : String) : BatchResult :=
  if ok item_key then { r with success := r.success ++ [item_key] }
  else { r with failed := r.failed ++ [item_key] }

/-- Whether a call completed without raising. -/
def except_ok {α : Type} : Except String α → Bool
  | Except.ok _ => true
  | Except.error _ => false

/-- Embedding of `batch_update_items`. -/
def batch_update_items (b : Backend) (st : ZState) (item_keys : List String)
    (fields : List (String × String)) : BatchResult :=
  item_keys.foldl
    (batch_step (fun k => except_ok (update_item_fields b st k fields).result))
    ⟨[], []⟩

/-- Embedding of `batch_add_tags`. -/
def batch_add_tags (b : Backend) (st : ZState) (item_keys : List String)
    (tags : List String) : BatchResult :=
  item_keys.foldl
    (batch_step (fun k => except_ok (add_tags_to_item b st k tags).result))
    ⟨[], []⟩

/-- Embedding of `batch_remove_tags`. -/
def batch_remove_tags (b : Backend) (st : ZState) (item_keys : List String)
    (tags : List String) : BatchResult :=
  item_keys.foldl
    (batch_step (fun k => except_ok (remove_tags_from_item b st k tags).result))
    ⟨[], []⟩

/-- Embedding of `batch_move_to_collection`. -/
def batch_move_to_collection (b : Backend) (st : ZState) (item_keys : List String)
    (collection_key : String) : BatchResult :=
  item_keys.foldl
    (batch_step (fun k => except_ok (move_item_to_collection b st k collection_key).result))
    ⟨[], []⟩

/-- Embedding of `batch_delete_items`. -/
def batch_delete_items (b : Backend) (st : ZState) (item_keys : List String) : BatchResult :=
  item_keys.foldl
    (batch_step (fun k => except_ok (delete_item b st k).result))
    ⟨[], []⟩

theorem batch_foldl (ok : String → Bool) :
    ∀ (keys : List String) (r : BatchResult),
      keys.foldl (batch_step ok) r =
        ⟨r.success ++ keys.filter ok, r.failed ++ keys.filter (fun k => !ok k)⟩ := by
  intro keys
  induction keys with
  | nil =>
    intro r
    cases r
    simp
  | cons k rest ih =>
    intro r
    by_cases h : ok k = true
    · simp only [List.foldl_cons, batch_step, if_pos h, ih, List.filter_cons, h,
        if_true, Bool.not_true, Bool.false_eq_true, if_false, List.append_assoc,
        List.cons_append, List.nil_append]
    · have h' : ok k = false := by
        cases hok : ok k
        · rfl
        · exact absurd hok h
      simp only [List.foldl_cons, batch_step, h', Bool.false_eq_true, if_false, ih,
        List.filter_cons, Bool.not_false, if_true, List.append_assoc,
        List.cons_append, List.nil_append]

theorem count_filter_split (p : String → Bool) (l : List String) (a : String) :
    (l.filter p).count a + (l.filter (fun x => !p x)).count a = l.count a := by
  induction l with
  | nil => simp
  | cons x l ih =>
    by_cases h : p x = true
    · simp only [List.filter_cons, h, if_true, Bool.not_true, Bool.false_eq_true,
        if_false, List.count_cons]
      by_cases hx : x = a <;> simp [hx, beq_iff_eq] <;> omega
    · have h' : p x = false := by
        cases hp : p x
        · rfl
        · exact absurd hp h
      simp only [List.filter_cons, h', Bool.false_eq_true, if_false, Bool.not_false,
        if_true, List.count_cons]
      by_cases hx : x = a <;> simp [hx, beq_iff_eq] <;> omega

theorem length_filter_split (p : String → Bool) (l : List String) :
    (l.filter p).length + (l.filter (fun x => !p x)).length = l.length := by
  induction l with
  | nil => simp
  | cons x l ih =>
    by_cases h : p x = true
    · simp only [List.filter_cons, h, if_true, Bool.not_true, Bool.false_eq_true,
        if_false, List.length_cons]
      omega
    · have h' : p x = false := by
        cases hp : p x
        · rfl
        · exact absurd hp h
      simp only [List.filter_cons, h', Bool.false_eq_true, if_false, Bool.not_false,
        if_true, List.length_cons]
      omega

/-- C10: every batch operation partitions its input key list.  Each of the
five batch functions returns exactly the input keys that succeeded, in input
order, as `success` and the input keys that raised, in input order, as
`failed`; the two lists together carry one entry per input key — per key the
occurrence counts add up, and so do the lengths — so no key is dropped,
duplicated across the lists, or invented. -/
theorem batch_results_partition_input (b : Backend) (st : ZState)
    (keys : List String) (fields : List (String × String)) (tags : List String)
    (collection_key : String) (key : String) :
    (batch_update_items b st keys fields =
      ⟨keys.filter (fun k => except_ok (update_item_fields b st k fields).result),
       keys.filter (fun k => !except_ok (update_item_fields b st k fields).result)⟩ ∧
     (batch_update_items b st keys fields).success.count key +
       (batch_update_items b st keys fields).failed.count key = keys.count key ∧
     (batch_update_items b st keys fields).success.length +
       (batch_update_items b st keys fields).failed.length = keys.length) ∧
    (batch_add_tags b st keys tags =
      ⟨keys.filter (fun k => except_ok (add_tags_to_item b st k tags).result),
       keys.filter (fun k => !except_ok (add_tags_to_item b st k tags).result)⟩ ∧
     (batch_add_tags b st keys tags).success.count key +
       (batch_add_tags b st keys tags).failed.count key = keys.count key ∧
     (batch_add_tags b st keys tags).success.length +
       (batch_add_tags b st keys tags).failed.length = keys.length) ∧
    (batch_remove_tags b st keys tags =
      ⟨keys.filter (fun k => except_ok (remove_tags_from_item b st k tags).result),
       keys.filter (fun k => !except_ok (remove_tags_from_item b st k tags).result)⟩ ∧
     (batch_remove_tags b st keys tags).success.count key +
       (batch_remove_tags b st keys tags).failed.count key = keys.count key ∧
     (batch_remove_tags b st keys tags).success.length +
       (batch_remove_tags b st keys tags).failed.length = keys.length) ∧
    (batch_move_to_collection b st keys collection_key =
      ⟨keys.filter (fun k => except_ok (move_item_to_collection b st k collection_key).result),
       keys.filter (fun k =>
         !except_ok (move_item_to_collection b st k collection_key).result)⟩ ∧
     (batch_move_to_collection b st keys collection_key).success.count key +
       (batch_move_to_collection b st keys collection_key).failed.count key
         = keys.count key ∧
     (batch_move_to_collection b st keys collection_key).success.length +
       (batch_move_to_collection b st keys collection_key).failed.length = keys.length) ∧
    (batch_delete_items b st keys =
      ⟨keys.filter (fun k => except_ok (delete_item b st k).result),
       keys.filter (fun k => !except_ok (delete_item b st k).result)⟩ ∧
     (batch_delete_items b st keys).success.count key +
       (batch_delete_items b st keys).failed.count key = keys.count key ∧
     (batch_delete_items b st keys).success.length +
       (batch_delete_items b st keys).failed.length = keys.length) := by
  have h₁ := batch_foldl (fun k => except_ok (update_item_fields b st k fields).result)
    keys ⟨[], []⟩
  have h₂ := batch_foldl (fun k => except_ok (add_tags_to_item b st k tags).result)
    keys ⟨[], []⟩
  have h₃ := batch_foldl (fun k => except_ok (remove_tags_from_item b st k tags).result)
    keys ⟨[], []⟩
  have h₄ := batch_foldl
    (fun k => except_ok (move_item_to_collection b st k collection_key).result)
    keys ⟨[], []⟩
  have h₅ := batch_foldl (fun k => except_ok (delete_item b st k).result) keys ⟨[], []⟩
  simp only [List.nil_append] at h₁ h₂ h₃ h₄ h₅
  refine ⟨⟨h₁, ?_, ?_⟩, ⟨h₂, ?_, ?_⟩, ⟨h₃, ?_, ?_⟩, ⟨h₄, ?_, ?_⟩, ⟨h₅, ?_, ?_⟩⟩ <;>
    first
      | (rw [show batch_update_items b st keys fields
            = keys.foldl (batch_step
                (fun k => except_ok (update_item_fields b st k fields).result)) ⟨[], []⟩
            from rfl, h₁]
         first
          | exact count_filter_split _ keys key
          | exact length_filter_split _ keys)
      | (rw [show batch_add_tags b st keys tags
            = keys.foldl (batch_step
                (fun k => except_ok (add_tags_to_item b st k tags).result)) ⟨[], []⟩
            from rfl, h₂]
         first
          | exact count_filter_split _ keys key
          | exact length_filter_split _ keys)
      | (rw [show batch_remove_tags b st keys tags
            = keys.foldl (batch_step
                (fun k => except_ok (remove_tags_from_item b st k tags).result)) ⟨[], []⟩
            from rfl, h₃]
         first
          | exact count_filter_split _ keys key
          | exact length_filter_split _ keys)
      | (rw [show batch_move_to_collection b st keys collection_key
            = keys.foldl (batch_step
                (fun k =>
                  except_ok (move_item_to_collection b st k collection_key).result))
              ⟨[], []⟩
            from rfl, h₄]
         first
          | exact count_filter_split _ keys key
          | exact length_filter_split _ keys)
      | (rw [show batch_delete_items b st keys
            = keys.foldl (batch_step
                (fun k => except_ok (delete_item b st k).result)) ⟨[], []⟩
            from rfl, h₅]
         first
          | exact count_filter_split _ keys key
          | exact length_filter_split _ keys)

theorem add_tags_fold_spec (tags : List String) :
    ∀ acc : List String,
      ∃ app : List String,
        tags.foldl (fun acc tag => if tag ∈ acc then acc else acc ++ [tag]) acc =
          acc ++ app ∧
        app.Nodup ∧
        (∀ t ∈ app, t ∈ tags ∧ t ∉ acc) ∧
        ((∀ t ∈ tags, t ∈ acc) → app = []) := by
  induction tags with
  | nil =>
    intro acc
    exact ⟨[], by simp, List.nodup_nil, by simp, fun _ => rfl⟩
  | cons tag rest ih =>
    intro acc
    by_cases h : tag ∈ acc
    · obtain ⟨app, happ, hnd, hmem, hidem⟩ := ih acc
      refine ⟨app, ?_, hnd, ?_, ?_⟩
      · simpa [List.foldl_cons, if_pos h] using happ
      · intro t ht
        exact ⟨List.mem_cons_of_mem tag (hmem t ht).1, (hmem t ht).2⟩
      · intro hall
        exact hidem (fun t ht => hall t (List.mem_cons_of_mem tag ht))
    · obtain ⟨app, happ, hnd, hmem, -⟩ := ih (acc ++ [tag])
      refine ⟨tag :: app, ?_, ?_, ?_, ?_⟩
      · rw [List.foldl_cons, if_neg h, happ, List.append_assoc]
        rfl
      · refine List.nodup_cons.mpr ⟨?_, hnd⟩
        intro hin
        exact (hmem tag hin).2 (List.mem_append.mpr (Or.inr (List.mem_singleton.mpr rfl)))
      · intro t ht
        rcases List.mem_cons.mp ht with rfl | ht'
        · exact ⟨List.mem_cons_self t rest, h⟩
        · refine ⟨List.mem_cons_of_mem tag (hmem t ht').1, ?_⟩
          intro hin
          exact (hmem t ht').2 (List.mem_append.mpr (Or.inl hin))
      · intro hall
        exact absurd (hall tag (List.mem_cons_self tag rest)) h

/-- C9: `add_tags_to_item` preserves the existing tags in order, appends
each requested tag at most once and only when absent, and submits the
unchanged tag list when every requested tag is already present.  The item
submitted to the API is exactly the fetched item with `existing ++ app`
tags, where `app` lists the genuinely new requested tags. -/
theorem add_tags_to_item_preserves_tags (b : Backend) (st : ZState) (item_key : String)
    (tags : List String) (item : Item) (hget : b.getItem item_key = some item) :
    ∃ app : List String,
      add_tags_to_item b st item_key tags =
        ⟨zot_update_item b { item with tags := item.tags ++ app }, st,
         [Req.readReq item_key, Req.writeReq item_key]⟩ ∧
      app.Nodup ∧
      (∀ t ∈ app, t ∈ tags ∧ t ∉ item.tags) ∧
      ((∀ t ∈ tags, t ∈ item.tags) → app = []) := by
  obtain ⟨app, happ, hnd, hmem, hidem⟩ := add_tags_fold_spec tags item.tags
  refine ⟨app, ?_, hnd, hmem, hidem⟩
  simp only [add_tags_to_item, hget]
  rw [happ]

/-- Concrete data for the C9 witness. -/
def tagItemW : Item := ⟨"K", "journalArticle", none, [], ["a", "b"], []⟩

/-- A backend serving `tagItemW` under key `K`, accepting every write. -/
def tagBackendW : Backend :=
  ⟨[tagItemW], fun k => if k == "K" then some tagItemW else none,
   fun _ => true, fun _ => true, fun _ => none, fun _ => true⟩

/-- Witness for C9: requesting `["b", "c", "c"]` on tags `["a", "b"]`
submits `["a", "b", "c"]` — order kept, `b` not duplicated, `c` added
once. -/
theorem add_tags_to_item_preserves_tags_witness :
    ∃ app : List String,
      add_tags_to_item tagBackendW ⟨none⟩ "K" ["b", "c", "c"] =
        ⟨zot_update_item tagBackendW { tagItemW with tags := tagItemW.tags ++ app },
         ⟨none⟩, [Req.readReq "K", Req.writeReq "K"]⟩ ∧
      app.Nodup ∧
      (∀ t ∈ app, t ∈ (["b", "c", "c"] : List String) ∧ t ∉ tagItemW.tags) ∧
      ((∀ t ∈ (["b", "c", "c"] : List String), t ∈ tagItemW.tags) → app = []) :=
  add_tags_to_item_preserves_tags tagBackendW ⟨none⟩ "K" ["b", "c", "c"] tagItemW
    (by decide)

theorem merge_fold_changed (source_tags : List String) (target_tag : String) :
    ∀ (cur : List String) (acc : List String × Bool),
      (cur.foldl
        (fun acc tag =>
          if tag ∈ source_tags then
            (if target_tag ∈ acc.1 then acc.1 else acc.1 ++ [target_tag], true)
          else if tag ∈ acc.1 then acc
          else (acc.1 ++ [tag], acc.2)) acc).2 =
      (acc.2 || cur.any (fun t => decide (t ∈ source_tags))) := by
  intro cur
  induction cur with
  | nil => intro acc; simp
  | cons tag rest ih =>
    intro acc
    by_cases hsrc : tag ∈ source_tags
    · simp only [List.foldl_cons, if_pos hsrc]
      rw [ih]
      simp [hsrc]
    · simp only [List.foldl_cons, if_neg hsrc]
      by_cases hmem : tag ∈ acc.1
      · rw [if_pos hmem, ih]
        simp [hsrc]
      · rw [if_neg hmem, ih]
        simp [hsrc]

theorem merge_sweep (b : Backend) (source_tags : List String) (target_tag : String) :
    ∀ (items : List Item) (acc : Nat × List Req),
      (items.foldl
        (fun (acc : Nat × List Req) item =>
          let m := merge_tag_fold source_tags target_tag item.tags
          if m.2 then
            match zot_update_item b { item with tags := m.1 } with
            | Except.ok _ => (acc.1 + 1, acc.2 ++ [Req.writeReq item.key])
            | Except.error _ => (acc.1, acc.2 ++ [Req.writeReq item.key])
          else acc) acc) =
      (acc.1 + (items.filter
          (fun it => it.tags.any (fun t => decide (t ∈ source_tags)))).countP
            (fun it => b.updateOk
              { it with tags := (merge_tag_fold source_tags target_tag it.tags).1 }),
       acc.2 ++ (items.filter
          (fun it => it.tags.any (fun t => decide (t ∈ source_tags)))).map
            (fun it => Req.writeReq it.key)) := by
  intro items
  induction items with
  | nil => intro acc; simp
  | cons item rest ih =>
    intro acc
    have hflag : (merge_tag_fold source_tags target_tag item.tags).2 =
        item.tags.any (fun t => decide (t ∈ source_tags)) := by
      rw [show merge_tag_fold source_tags target_tag item.tags = item.tags.foldl
          (fun acc tag =>
            if tag ∈ source_tags then
              (if target_tag ∈ acc.1 then acc.1 else acc.1 ++ [target_tag], true)
            else if tag ∈ acc.1 then acc
            else (acc.1 ++ [tag], acc.2)) ([], false) from rfl,
        merge_fold_changed]
      simp
    simp only [List.foldl_cons]
    by_cases hch : item.tags.any (fun t => decide (t ∈ source_tags)) = true
    · simp only [hflag, hch, if_true]
      by_cases hupd : b.updateOk
          { item with tags := (merge_tag_fold source_tags target_tag item.tags).1 } = true
      · rw [show zot_update_item b
            { item with tags := (merge_tag_fold source_tags target_tag item.tags).1 } =
            Except.ok { item with tags := (merge_tag_fold source_tags target_tag item.tags).1 }
            from by simp [zot_update_item, hupd]]
        rw [ih]
        simp only [List.filter_cons, hch, if_true, List.countP_cons, hupd, if_true,
          List.map_cons, List.cons_append, List.append_assoc, Prod.mk.injEq]
        refine ⟨by omega, by simp⟩
      · have hupd' : b.updateOk
            { item with tags := (merge_tag_fold source_tags target_tag item.tags).1 } = false := by
          cases hu : b.updateOk
            { item with tags := (merge_tag_fold source_tags target_tag item.tags).1 }
          · rfl
          · exact absurd hu hupd
        rw [show zot_update_item b
            { item with tags := (merge_tag_fold source_tags target_tag item.tags).1 } =
            Except.error "update failed" from by simp [zot_update_item, hupd']]
        rw [ih]
        simp only [List.filter_cons, hch, if_true, List.countP_cons, hupd',
          Bool.false_eq_true, if_false, List.map_cons, List.cons_append,
          List.append_assoc, Prod.mk.injEq]
        refine ⟨by omega, by simp⟩
    · have hch' : item.tags.any (fun t => decide (t ∈ source_tags)) = false := by
        cases hc : item.tags.any (fun t => decide (t ∈ source_tags))
        · rfl
        · exact absurd hc hch
      simp only [hflag, hch', Bool.false_eq_true, if_false]
      rw [ih]
      simp [List.filter_cons, hch']

/-- Concrete item and backends for the C1 counterexample and witnesses. -/
def cexItem : Item := ⟨"K", "journalArticle", none, [("title", "t")], ["old"], []⟩

/-- A backend serving `cexItem` and accepting every write. -/
def cexBackendOk : Backend :=
  ⟨[cexItem], fun k => if k == "K" then some cexItem else none,
   fun _ => true, fun _ => true, fun _ => none, fun _ => true⟩

/-- A backend on which every request fails. -/
def cexBackendErr : Backend :=
  ⟨[], fun _ => none, fun _ => false, fun _ => false, fun _ => none, fun _ => false⟩

/-- Counterexample to C1 as stated: `update_item_fields` issues two HTTP
requests, not one, and when the item fetch fails the exception propagates
to the caller instead of a success/error dict being returned. -/
theorem mutating_ops_counterexample :
    (update_item_fields cexBackendOk ⟨none⟩ "K" [("title", "x")]).trace.length = 2 ∧
    (update_item_fields cexBackendErr ⟨none⟩ "K" []).result =
      Except.error ("item not found: " ++ "K") := by
  constructor
  · rfl
  · rfl

/-- C1 (corrected): the per-item mutators (`update_item_fields` here, and
`add_tags_to_item` by `add_tags_to_item_preserves_tags`) issue a read
round-trip followed by a write round-trip, return the raw API response, and
propagate exceptions; the merge operations are wrapped in `try/except` and
always return a success/error dict, but issue the pagination reads plus one
write per item carrying a source tag. -/
theorem mutating_ops_roundtrips_and_wrapping (b : Backend) (st : ZState)
    (key : String) (fields : List (String × String)) (item : Item)
    (source_tags : List String) (target_tag : String) (source_keys : List String)
    (target_key : String) :
    (b.getItem key = some item →
      update_item_fields b st key fields =
        ⟨zot_update_item b (setFields item fields), st,
         [Req.readReq key, Req.writeReq key]⟩) ∧
    (b.getItem key = none →
      (update_item_fields b st key fields).result =
        Except.error ("item not found: " ++ key) ∧
      (update_item_fields b st key fields).trace = [Req.readReq key]) ∧
    ((merge_tags b st source_tags target_tag).1.success = true ∧
     (merge_tags b st source_tags target_tag).1.updated_items =
       (b.library.filter
          (fun it => it.tags.any (fun t => decide (t ∈ source_tags)))).countP
            (fun it => b.updateOk
              { it with tags := (merge_tag_fold source_tags target_tag it.tags).1 }) ∧
     (merge_tags b st source_tags target_tag).2.2 =
       (zot_all_items b).2 ++
         (b.library.filter
            (fun it => it.tags.any (fun t => decide (t ∈ source_tags)))).map
              (fun it => Req.writeReq it.key)) ∧
    (merge_collections b st source_keys target_key).1.success = true := by
  refine ⟨?_, ?_, ?_, ?_⟩
  · intro hget
    simp only [update_item_fields, hget]
  · intro hget
    simp [update_item_fields, hget]
  · have hfst := zot_all_items_fst b
    refine ⟨rfl, ?_, ?_⟩
    · show ((zot_all_items b).1.foldl _ (0, [])).1 = _
      rw [hfst, merge_sweep b source_tags target_tag b.library (0, [])]
      simp
    · show (zot_all_items b).2 ++ ((zot_all_items b).1.foldl _ (0, [])).2 = _
      rw [hfst, merge_sweep b source_tags target_tag b.library (0, [])]
      simp
  · rfl

/-- Witness for the corrected C1 at concrete backends: two requests on the
success path, propagated error on the failure path, merge returns a success
dict. -/
theorem mutating_ops_roundtrips_witness :
    update_item_fields cexBackendOk ⟨none⟩ "K" [("title", "x")] =
      ⟨zot_update_item cexBackendOk (setFields cexItem [("title", "x")]), ⟨none⟩,
       [Req.readReq "K", Req.writeReq "K"]⟩ ∧
    (update_item_fields cexBackendErr ⟨none⟩ "Q" []).result =
      Except.error ("item not found: " ++ "Q") ∧
    (merge_tags cexBackendOk ⟨none⟩ ["old"] "new").1.success = true ∧
    (merge_collections cexBackendOk ⟨none⟩ ["S"] "T").1.success = true := by
  refine ⟨?_, ?_, ?_, ?_⟩
  · exact (mutating_ops_roundtrips_and_wrapping cexBackendOk ⟨none⟩ "K" [("title", "x")]
      cexItem [] "" [] "").1 (by decide)
  · exact ((mutating_ops_roundtrips_and_wrapping cexBackendErr ⟨none⟩ "Q" []
      cexItem [] "" [] "").2.1 (by decide)).1
  · exact (mutating_ops_roundtrips_and_wrapping cexBackendOk ⟨none⟩ "K" [] cexItem
      ["old"] "new" [] "").2.2.1.1
  · exact (mutating_ops_roundtrips_and_wrapping cexBackendOk ⟨none⟩ "K" [] cexItem
      [] "" ["S"] "T").2.2.2

/-- An item living on the backend but absent from the stale cache. -/
def freshItem : Item := ⟨"N", "journalArticle", none, [("title", "new")], [], []⟩

/-- Backend for the cache counterexample: the library holds `freshItem`,
and `update_item_fields` on key `K` succeeds. -/
def cacheBackend : Backend :=
  ⟨[freshItem], fun k => if k == "K" then some cexItem else none,
   fun _ => true, fun _ => true, fun _ => none, fun _ => true⟩

/-- A client state whose `_library_cache` holds a stale snapshot. -/
def staleState : ZState := ⟨some [⟨cexItem, []⟩]⟩

/-- Counterexample to C2 as stated: after the mutating call
`update_item_fields`, `_get_library_with_children` still returns the stale
cached snapshot (issuing no request), which differs from what a fresh fetch
of the current library returns — the cache was not cleared on write. -/
theorem cache_cleared_on_write_counterexample :
    (_get_library_with_children cacheBackend
        (update_item_fields cacheBackend staleState "K" [("title", "x")]).state).1 =
      [⟨cexItem, []⟩] ∧
    (_get_library_with_children cacheBackend
        (update_item_fields cacheBackend staleState "K" [("title", "x")]).state).2.2 = [] ∧
    (_get_library_with_children cacheBackend ⟨none⟩).1 = [⟨freshItem, []⟩] ∧
    ([⟨cexItem, []⟩] : List ItemWithChildren) ≠ [⟨freshItem, []⟩] := by
  refine ⟨rfl, rfl, ?_, by decide⟩
  rfl

/-- C2 (corrected): the `_library_cache` is never invalidated.  Mutating
operations leave the client state — and hence the cache — untouched, and
whenever the cache is set, `_get_library_with_children` returns the cached
list as is, issuing no HTTP request, regardless of any intervening write. -/
theorem library_cache_never_invalidated (b : Backend) (st : ZState) (key : String)
    (fields : List (String × String)) (c : List ItemWithChildren) :
    ((update_item_fields b st key fields).state = st ∧
     (delete_item b st key).state = st ∧
     (add_tags_to_item b st key []).state = st) ∧
    (st.cache = some c → _get_library_with_children b st = (c, st, [])) := by
  constructor
  · refine ⟨?_, rfl, ?_⟩
    · cases hget : b.getItem key <;> simp [update_item_fields, hget]
    · cases hget : b.getItem key <;> simp [add_tags_to_item, hget]
  · intro hc
    simp only [_get_library_with_children, hc]

/-- Witness for the corrected C2: on the concrete stale state the cache
survives the write and the cached snapshot is served without requests. -/
theorem library_cache_never_invalidated_witness :
    (update_item_fields cacheBackend staleState "K" [("title", "x")]).state = staleState ∧
    _get_library_with_children cacheBackend staleState =
      ([⟨cexItem, []⟩], staleState, []) := by
  constructor
  · exact (library_cache_never_invalidated cacheBackend staleState "K" [("title", "x")]
      [⟨cexItem, []⟩]).1.1
  · exact (library_cache_never_invalidated cacheBackend staleState "K" [("title", "x")]
      [⟨cexItem, []⟩]).2 (by decide)

/-!
## File upload: `upload_pdf` (source lines 735-849) and `replace_attachment`
(source lines 3132-3225)

Both send the file content in one direct `httpx.post`; on a non-2xx status
they fall back to a second upload attempt through `pyzotero.zupload`, and
when that also fails they still return `success: True` with a warning
message.  Filesystem reads, hashing and the metadata update are abstracted
into the environment record; the branch structure is the source's.
-/

/-- One file-upload attempt. -/
inductive UploadAttempt where
  | directReq
  | zuploadReq
deriving Repr, DecidableEq

/-- The environment `upload_pdf` runs in: outcomes of the filesystem check,
the metadata creation, the direct upload, and the zupload fallback. -/
structure UploadEnv where
  fileExists : Bool
  isPdfSuffix : Bool
  createOk : Bool
  attachmentKey : String
  directStatus : Nat
  zuploadImportOk : Bool
  zuploadOk : Bool
deriving Repr, DecidableEq

/-- The dict `upload_pdf` returns, plus the upload attempts it made. -/
structure UploadResult where
  success : Bool
  key : Option String
  error : Option String
  warning : Option String
  attempts : List UploadAttempt
deriving Repr, DecidableEq

/-- Embedding of `upload_pdf`. -/
def upload_pdf (env : UploadEnv) : UploadResult :=
  if !env.fileExists then
    ⟨false, none, some "PDF not found", none, []⟩
  else if !env.isPdfSuffix then
    ⟨false, none, some "File is not a PDF", none, []⟩
  else if !env.createOk then
    ⟨false, none, some "Failed to create attachment metadata", none, []⟩
  else if env.directStatus == 200 || env.directStatus == 201 || env.directStatus == 204 then
    ⟨true, some env.attachmentKey, none, none, [UploadAttempt.directReq]⟩
  else if !env.zuploadImportOk then
    ⟨true, some env.attachmentKey, none,
     some "Attachment metadata created but file upload requires zupload package",
     [UploadAttempt.directReq]⟩
  else if env.zuploadOk then
    ⟨true, some env.attachmentKey, none, none,
     [UploadAttempt.directReq, UploadAttempt.zuploadReq]⟩
  else
    ⟨true, some env.attachmentKey, none,
     some "Attachment metadata created but file upload failed",
     [UploadAttempt.directReq, UploadAttempt.zuploadReq]⟩

/-- The environment `replace_attachment` runs in. -/
structure ReplaceEnv where
  itemFound : Bool
  isAttachment : Bool
  fileExists : Bool
  directStatus : Nat
  zuploadImportOk : Bool
  zuploadOk : Bool
deriving Repr, DecidableEq

/-- The dict `replace_attachment` returns, plus the upload attempts. -/
structure ReplaceResult where
  success : Bool
  message : Option String
  error : Option String
  attempts : List UploadAttempt
deriving Repr, DecidableEq

/-- Embedding of `replace_attachment`. -/
def replace_attachment (env : ReplaceEnv) : ReplaceResult :=
  if !env.itemFound then
    ⟨false, none, some "Attachment not found", []⟩
  else if !env.isAttachment then
    ⟨false, none, some "Item is not an attachment", []⟩
  else if !env.fileExists then
    ⟨false, none, some "File not found", []⟩
  else if env.directStatus == 200 || env.directStatus == 201 || env.directStatus == 204 then
    ⟨true, some "Attachment replaced successfully", none, [UploadAttempt.directReq]⟩
  else if !env.zuploadImportOk then
    ⟨true, some "Metadata updated but file upload may require manual sync", none,
     [UploadAttempt.directReq]⟩
  else if env.zuploadOk then
    ⟨true, some "Attachment replaced successfully (via zupload)", none,
     [UploadAttempt.directReq, UploadAttempt.zuploadReq]⟩
  else
    ⟨true, some "Metadata updated but file upload may require manual sync", none,
     [UploadAttempt.directReq, UploadAttempt.zuploadReq]⟩

/-- Environment for the C5 counterexample: direct upload rejected with 500,
zupload importable. -/
def uploadEnvCex : UploadEnv := ⟨true, true, true, "ATT", 500, true, true⟩

/-- Environment for the C5 counterexample on `replace_attachment`: direct
upload rejected and the zupload fallback also fails. -/
def replaceEnvCex : ReplaceEnv := ⟨true, true, true, 500, true, false⟩

/-- Counterexample to C5 as stated: on a non-2xx direct upload `upload_pdf`
does reattempt the upload through the zupload fallback, and
`replace_attachment` reports `success: True` even when both the direct
upload and the fallback fail — the failure is not reported to the caller. -/
theorem no_retry_counterexample :
    (upload_pdf uploadEnvCex).attempts =
      [UploadAttempt.directReq, UploadAttempt.zuploadReq] ∧
    (upload_pdf uploadEnvCex).success = true ∧
    (replace_attachment replaceEnvCex).attempts =
      [UploadAttempt.directReq, UploadAttempt.zuploadReq] ∧
    (replace_attachment replaceEnvCex).success = true ∧
    (replace_attachment replaceEnvCex).error = none := by
  refine ⟨rfl, rfl, rfl, rfl, rfl⟩

/-- C5 (corrected): when the direct HTTP upload returns a non-2xx status,
`upload_pdf` and `replace_attachment` reattempt the upload once through the
pyzotero zupload fallback (when it is importable) and in every such case
return `success: True` — a warning or soft message at most — instead of
reporting the failure to the caller. -/
theorem upload_fallback_and_soft_failure (env : UploadEnv) (renv : ReplaceEnv) :
    (env.fileExists = true → env.isPdfSuffix = true → env.createOk = true →
      env.directStatus ≠ 200 → env.directStatus ≠ 201 → env.directStatus ≠ 204 →
      ((env.zuploadImportOk = true →
        (upload_pdf env).attempts =
          [UploadAttempt.directReq, UploadAttempt.zuploadReq]) ∧
       (upload_pdf env).success = true ∧
       (upload_pdf env).error = none)) ∧
    (renv.itemFound = true → renv.isAttachment = true → renv.fileExists = true →
      renv.directStatus ≠ 200 → renv.directStatus ≠ 201 → renv.directStatus ≠ 204 →
      ((renv.zuploadImportOk = true →
        (replace_attachment renv).attempts =
          [UploadAttempt.directReq, UploadAttempt.zuploadReq]) ∧
       (replace_attachment renv).success = true ∧
       (replace_attachment renv).error = none)) := by
  constructor
  · intro hfe hpdf hcr h200 h201 h204
    have hstat : (env.directStatus == 200 || env.directStatus == 201 ||
        env.directStatus == 204) = false := by
      simp [h200, h201, h204]
    refine ⟨?_, ?_, ?_⟩
    · intro himp
      simp only [upload_pdf, hfe, hpdf, hcr, hstat, himp, Bool.not_true,
        Bool.false_eq_true, if_false]
      cases hz : env.zuploadOk <;> simp [hz]
    · simp only [upload_pdf, hfe, hpdf, hcr, hstat, Bool.not_true, Bool.false_eq_true,
        if_false]
      cases himp : env.zuploadImportOk <;> cases hz : env.zuploadOk <;> simp [himp, hz]
    · simp only [upload_pdf, hfe, hpdf, hcr, hstat, Bool.not_true, Bool.false_eq_true,
        if_false]
      cases himp : env.zuploadImportOk <;> cases hz : env.zuploadOk <;> simp [himp, hz]
  · intro hfo hatt hfe h200 h201 h204
    have hstat : (renv.directStatus == 200 || renv.directStatus == 201 ||
        renv.directStatus == 204) = false := by
      simp [h200, h201, h204]
    refine ⟨?_, ?_, ?_⟩
    · intro himp
      simp only [replace_attachment, hfo, hatt, hfe, hstat, himp, Bool.not_true,
        Bool.false_eq_true, if_false]
      cases hz : renv.zuploadOk <;> simp [hz]
    · simp only [replace_attachment, hfo, hatt, hfe, hstat, Bool.not_true,
        Bool.false_eq_true, if_false]
      cases himp : renv.zuploadImportOk <;> cases hz : renv.zuploadOk <;> simp [himp, hz]
    · simp only [replace_attachment, hfo, hatt, hfe, hstat, Bool.not_true,
        Bool.false_eq_true, if_false]
      cases himp : renv.zuploadImportOk <;> cases hz : renv.zuploadOk <;> simp [himp, hz]

/-- Witness for the corrected C5 at the concrete failing environments. -/
theorem upload_fallback_witness :
    (upload_pdf uploadEnvCex).attempts =
      [UploadAttempt.directReq, UploadAttempt.zuploadReq] ∧
    (replace_attachment replaceEnvCex).success = true := by
  constructor
  · exact ((upload_fallback_and_soft_failure uploadEnvCex replaceEnvCex).1
      (by decide) (by decide) (by decide) (by decide) (by decide) (by decide)).1
      (by decide)
  · exact ((upload_fallback_and_soft_failure uploadEnvCex replaceEnvCex).2
      (by decide) (by decide) (by decide) (by decide) (by decide) (by decide)).2.1

end ZoteroLib
